import Mathlib

/-!
Verification development for the `abstract-search-server.js` MCP server
(`classScopusMCP`). The JavaScript source is shallowly embedded:

* the Text Normalizer `cleanAbstract` (lines 103–122) is embedded over
  `List Char` (JS `.length`/`substring` agree with character counts on the
  BMP text handled here);
* JSON values are the inductive `Json` (JSON numbers are modelled as
  integers: the server never computes on numbers, it only passes them
  through);
* network effects are abstracted by a `Net` record giving the outcome of
  each HTTP interaction, and every function that performs provider calls
  also returns the list of `ProviderCall`s it made, in call order;
* a JS exception that the embedded code propagates is an `Except` error
  carrying the message.
-/

namespace AbstractSearch

/-! ## JSON values and JavaScript-style helpers -/

inductive Json where
  | null
  | bool (b : Bool)
  | num (n : Int)
  | str (s : String)
  | arr (elems : List Json)
  | obj (fields : List (String × Json))

/-- JS truthiness of a JSON value (`NaN` cannot arise: numbers are integers). -/
def jsTruthy : Json → Bool
  | .null => false
  | .bool b => b
  | .num n => n != 0
  | .str s => s != ""
  | .arr _ => true
  | .obj _ => true

/-- JS property lookup `v[key]`; `none` plays the role of `undefined`
(property access on primitives and arrays yields `undefined` for these
string keys). Duplicate keys follow `JSON.parse` semantics: the last
occurrence wins. Property access on `null` throws in JS; the callers
below model that case explicitly before calling `get?`. -/
def Json.get? : Json → String → Option Json
  | .obj fields, key =>
      (fields.filterMap (fun f => if f.1 = key then some f.2 else none)).getLast?
  | _, _ => none

/-- JS `v || dflt` where `v` may be `undefined` (`none`). -/
def jsOrElse (v : Option Json) (dflt : Json) : Json :=
  match v with
  | some j => if jsTruthy j then j else dflt
  | none => dflt

/-- JS strict equality `v === "s"` of a possibly-undefined value with a
string literal. -/
def isStrVal (v : Option Json) (s : String) : Bool :=
  match v with
  | some (.str t) => t == s
  | _ => false

/-- JS strict equality `v === "s"` of a JSON value with a string literal. -/
def Json.isStr (v : Json) (s : String) : Bool :=
  match v with
  | .str t => t == s
  | _ => false

mutual

/-- JS string conversion as used by template literals: primitives print
their usual form, arrays join their elements with `,` (`null` elements
print as the empty string), plain objects print `[object Object]`. -/
def Json.toDisplayString : Json → String
  | .null => "null"
  | .bool b => cond b "true" "false"
  | .num n => toString n
  | .str s => s
  | .arr es => Json.displayElems es
  | .obj _ => "[object Object]"

def Json.displayElems : List Json → String
  | [] => ""
  | [Json.null] => ""
  | [e] => Json.toDisplayString e
  | Json.null :: rest => "," ++ Json.displayElems rest
  | e :: rest => Json.toDisplayString e ++ "," ++ Json.displayElems rest

end

/-- JS template-literal rendering of a possibly-undefined value. -/
def jsDisplayU : Option Json → String
  | none => "undefined"
  | some j => j.toDisplayString

/-! ## Text Normalizer (`cleanAbstract`, lines 103–122)

The three `String.prototype.replace` calls with global regexes
(`/<[^>]+>/g`, `/<jats:[^>]+>/g`, `/<\/jats:[^>]+>/g`), the whitespace
collapse `/\s+/g → " "`, `trim()`, and the 500-character truncation are
embedded over `List Char`, following the JS regex engine's
leftmost/non-overlapping scan. `[^>]+` is greedy but cannot cross `>`,
so a match starting at a given `<` always ends at the first later `>`,
provided at least one character stands between them. -/

/-- The JS `\s` whitespace class, restricted to the characters relevant
here: ASCII whitespace plus no-break space and BOM. -/
def isJsWs (c : Char) : Bool :=
  c == ' ' || c == '\t' || c == '\n' || c == '\r' || c == '\x0b' || c == '\x0c' ||
  c == '\u00A0' || c == '\uFEFF'

/-- Split a character list at the first `>`: `some (pre, post)` when
`l = pre ++ [ gt ] ++ post` with no `>` in `pre`; `none` when `l` has
no `>`. -/
def splitAtGt : List Char → Option (List Char × List Char)
  | [] => none
  | c :: rest =>
      if c == '>' then some ([], rest)
      else
        match splitAtGt rest with
        | some (pre, post) => some (c :: pre, post)
        | none => none

theorem splitAtGt_eq_append {l pre post : List Char}
    (h : splitAtGt l = some (pre, post)) : l = pre ++ '>' :: post := by
  induction l generalizing pre post with
  | nil => simp [splitAtGt] at h
  | cons c rest ih =>
    by_cases hc : c = '>'
    · subst hc
      simp [splitAtGt] at h
      obtain ⟨h1, h2⟩ := h
      subst h1
      subst h2
      rfl
    · have hbc : (c == '>') = false := by simp [hc]
      cases hs : splitAtGt rest with
      | none => simp [splitAtGt, hbc, hs] at h
      | some p =>
        obtain ⟨pr, po⟩ := p
        simp [splitAtGt, hbc, hs] at h
        obtain ⟨h1, h2⟩ := h
        subst h1
        subst h2
        simpa using ih hs

theorem splitAtGt_post_length {l pre post : List Char}
    (h : splitAtGt l = some (pre, post)) : post.length < l.length := by
  have := splitAtGt_eq_append h
  subst this
  simp only [List.length_append, List.length_cons]
  omega

theorem splitAtGt_none_iff {l : List Char} :
    splitAtGt l = none ↔ '>' ∉ l := by
  induction l with
  | nil => simp [splitAtGt]
  | cons c rest ih =>
    by_cases hc : c = '>'
    · subst hc
      simp [splitAtGt]
    · have hbc : (c == '>') = false := by simp [hc]
      cases hs : splitAtGt rest with
      | none =>
        simp [splitAtGt, hbc, hs, List.mem_cons, Ne.symm hc, ih.mp hs]
      | some p =>
        obtain ⟨pre, post⟩ := p
        have hmem : '>' ∈ rest := by
          have := splitAtGt_eq_append hs
          subst this
          simp
        simp [splitAtGt, hbc, hs, List.mem_cons, hmem]

theorem splitAtGt_pre_no_gt {l pre post : List Char}
    (h : splitAtGt l = some (pre, post)) : '>' ∉ pre := by
  induction l generalizing pre post with
  | nil => simp [splitAtGt] at h
  | cons c rest ih =>
    by_cases hc : c = '>'
    · subst hc
      simp [splitAtGt] at h
      obtain ⟨h1, h2⟩ := h
      subst h1
      simp
    · have hbc : (c == '>') = false := by simp [hc]
      cases hs : splitAtGt rest with
      | none => simp [splitAtGt, hbc, hs] at h
      | some p =>
        obtain ⟨pr, po⟩ := p
        simp [splitAtGt, hbc, hs] at h
        obtain ⟨h1, h2⟩ := h
        subst h1
        simp only [List.mem_cons, not_or]
        exact ⟨Ne.symm hc, ih hs⟩

/-- The global replace `abstract.replace(/<[^>]+>/g, '')` (line 109): delete every maximal
`<`…`>` span that holds at least one non-`>` character, scanning left to
right. A `<` immediately followed by `>` (or with no later `>`) does not
match and survives. -/
def removeTags : List Char → List Char
  | [] => []
  | c :: rest =>
      if c == '<' then
        match h : splitAtGt rest with
        | some (pre, post) =>
            if pre.isEmpty then '<' :: removeTags rest
            else removeTags post
        | none => '<' :: removeTags rest
      else c :: removeTags rest
termination_by l => l.length
decreasing_by
  all_goals simp only [List.length_cons]
  · omega
  · have h1 := splitAtGt_post_length h
    omega
  · omega
  · omega

/-- The literal `jats:` after `<` in `/<jats:[^>]+>/g`. -/
def dropJatsLit : List Char → Option (List Char)
  | 'j' :: 'a' :: 't' :: 's' :: ':' :: rest => some rest
  | _ => none

/-- The literal `/jats:` after `<` in `/<\/jats:[^>]+>/g`. -/
def dropSlashJatsLit : List Char → Option (List Char)
  | '/' :: 'j' :: 'a' :: 't' :: 's' :: ':' :: rest => some rest
  | _ => none

theorem dropJatsLit_shape {l r : List Char} (h : dropJatsLit l = some r) :
    l = 'j' :: 'a' :: 't' :: 's' :: ':' :: r := by
  unfold dropJatsLit at h
  split at h
  · simp at h; rw [h]
  · simp at h

theorem dropSlashJatsLit_shape {l r : List Char} (h : dropSlashJatsLit l = some r) :
    l = '/' :: 'j' :: 'a' :: 't' :: 's' :: ':' :: r := by
  unfold dropSlashJatsLit at h
  split at h
  · simp at h; rw [h]
  · simp at h

/-- The pass `cleanText.replace(/<jats:[^>]+>/g, '')` (line 110). -/
def removeJatsOpen : List Char → List Char
  | [] => []
  | c :: rest =>
      if c == '<' then
        match hL : dropJatsLit rest with
        | some afterLit =>
            match h : splitAtGt afterLit with
            | some (pre, post) =>
                if pre.isEmpty then '<' :: removeJatsOpen rest
                else removeJatsOpen post
            | none => '<' :: removeJatsOpen rest
        | none => '<' :: removeJatsOpen rest
      else c :: removeJatsOpen rest
termination_by l => l.length
decreasing_by
  all_goals simp only [List.length_cons]
  · omega
  · have h1 := splitAtGt_post_length h
    have h2 := dropJatsLit_shape hL
    subst h2
    simp only [List.length_cons]
    omega
  · omega
  · omega
  · omega

/-- The pass `cleanText.replace(/<\/jats:[^>]+>/g, '')` (line 111). -/
def removeJatsClose : List Char → List Char
  | [] => []
  | c :: rest =>
      if c == '<' then
        match hL : dropSlashJatsLit rest with
        | some afterLit =>
            match h : splitAtGt afterLit with
            | some (pre, post) =>
                if pre.isEmpty then '<' :: removeJatsClose rest
                else removeJatsClose post
            | none => '<' :: removeJatsClose rest
        | none => '<' :: removeJatsClose rest
      else c :: removeJatsClose rest
termination_by l => l.length
decreasing_by
  all_goals simp only [List.length_cons]
  · omega
  · have h1 := splitAtGt_post_length h
    have h2 := dropSlashJatsLit_shape hL
    subst h2
    simp only [List.length_cons]
    omega
  · omega
  · omega
  · omega

/-- The collapse `cleanText.replace(/\s+/g, ' ')` (line 114): each maximal whitespace
run becomes a single space. -/
def collapseWs : List Char → List Char
  | [] => []
  | c :: rest =>
      if isJsWs c then ' ' :: collapseWs (rest.dropWhile isJsWs)
      else c :: collapseWs rest
termination_by l => l.length
decreasing_by
  all_goals simp only [List.length_cons]
  · have h1 : (rest.dropWhile isJsWs).length ≤ rest.length :=
      (List.dropWhile_sublist isJsWs).length_le
    omega
  · omega

/-- The call `.trim()` (line 114): drop whitespace from both ends. -/
def trimLeftWs (l : List Char) : List Char := l.dropWhile isJsWs

def trimRightWs (l : List Char) : List Char := (l.reverse.dropWhile isJsWs).reverse

def trimWs (l : List Char) : List Char := trimRightWs (trimLeftWs l)

/-- The three-character marker appended on truncation. -/
def ellipsis : List Char := ['.', '.', '.']

/-- Lines 117–119: keep only the first 500 characters, marking truncation. -/
def truncate500 (l : List Char) : List Char :=
  if 500 < l.length then l.take 500 ++ ellipsis else l

/-- The else-branch of `cleanAbstract`: tag removal, whitespace collapse,
trim, truncation, in source order. -/
def cleanCore (l : List Char) : List Char :=
  truncate500 (trimWs (collapseWs (removeJatsClose (removeJatsOpen (removeTags l)))))

/-- The normalizer `cleanAbstract(abstract)` (lines 103–122). The JS guard `!abstract`
on a string argument is the empty-string test. -/
def cleanAbstract (abstract : String) : String :=
  if abstract = "" ∨ abstract = "N/A" then "N/A"
  else String.mk (cleanCore abstract.data)

/-! ### Fixed points of the tag-removal passes

`noTag l` says `/<[^>]+>/` has no match in `l`: every `<` is immediately
followed by `>` or sees no `>` anywhere after it. The lemmas below show
`removeTags` always lands in `noTag`, that `noTag` lists are fixed by all
three tag-removal passes, and that the later pipeline stages (whitespace
collapse, trim, truncation) preserve `noTag`. -/

def gtFree : List Char → Bool
  | [] => true
  | c :: rest => c != '>' && gtFree rest

theorem gtFree_iff {l : List Char} : gtFree l = true ↔ '>' ∉ l := by
  induction l with
  | nil => simp [gtFree]
  | cons c rest ih =>
    simp only [gtFree, Bool.and_eq_true, bne_iff_ne, List.mem_cons, not_or, ih]
    constructor
    · rintro ⟨h1, h2⟩; exact ⟨fun hh => h1 hh.symm, h2⟩
    · rintro ⟨h1, h2⟩; exact ⟨fun hh => h1 hh.symm, h2⟩

def headIsGt : List Char → Bool
  | [] => false
  | c :: _ => c == '>'

def noTag : List Char → Bool
  | [] => true
  | c :: rest => (c != '<' || headIsGt rest || gtFree rest) && noTag rest

theorem noTag_tail {c : Char} {rest : List Char} (h : noTag (c :: rest) = true) :
    noTag rest = true := by
  simp only [noTag, Bool.and_eq_true] at h
  exact h.2

theorem noTag_cons {c : Char} {rest : List Char}
    (hc : c ≠ '<' ∨ headIsGt rest = true ∨ gtFree rest = true)
    (h : noTag rest = true) : noTag (c :: rest) = true := by
  simp only [noTag, Bool.and_eq_true, Bool.or_eq_true, bne_iff_ne, or_assoc]
  exact ⟨hc, h⟩

theorem noTag_cons_cond {c : Char} {rest : List Char} (h : noTag (c :: rest) = true) :
    c ≠ '<' ∨ headIsGt rest = true ∨ gtFree rest = true := by
  simp only [noTag, Bool.and_eq_true, Bool.or_eq_true, bne_iff_ne, or_assoc] at h
  exact h.1

theorem gtFree_noTag {l : List Char} (h : gtFree l = true) : noTag l = true := by
  induction l with
  | nil => simp [noTag]
  | cons c rest ih =>
    simp only [gtFree, Bool.and_eq_true] at h
    exact noTag_cons (Or.inr (Or.inr h.2)) (ih h.2)

/-! Unfolding lemmas for the tag removers, stated per branch so that later
proofs can rewrite without touching the dependent matches directly. -/

theorem removeTags_nil : removeTags [] = [] := by
  simp [removeTags]

theorem removeTags_cons_ne {c : Char} {rest : List Char} (hc : (c == '<') = false) :
    removeTags (c :: rest) = c :: removeTags rest := by
  simp only [removeTags, hc, Bool.false_eq_true, if_false]

theorem removeTags_cons_none {rest : List Char} (hs : splitAtGt rest = none) :
    removeTags ('<' :: rest) = '<' :: removeTags rest := by
  simp only [removeTags, beq_self_eq_true, if_true]
  split
  · rename_i pre post heq
    rw [hs] at heq
    simp at heq
  · rfl

theorem removeTags_cons_empty_pre {rest post : List Char}
    (hs : splitAtGt rest = some ([], post)) :
    removeTags ('<' :: rest) = '<' :: removeTags rest := by
  simp only [removeTags, beq_self_eq_true, if_true]
  split
  · rename_i pre' post' heq
    rw [hs] at heq
    simp only [Option.some.injEq, Prod.mk.injEq] at heq
    obtain ⟨h1, h2⟩ := heq
    subst h2
    rw [← h1]
    simp
  · rename_i heq
    exact absurd (hs.symm.trans heq) (by simp)

theorem removeTags_cons_matched {rest pre post : List Char}
    (hs : splitAtGt rest = some (pre, post)) (hp : pre ≠ []) :
    removeTags ('<' :: rest) = removeTags post := by
  simp only [removeTags, beq_self_eq_true, if_true]
  split
  · rename_i pre' post' heq
    rw [hs] at heq
    simp only [Option.some.injEq, Prod.mk.injEq] at heq
    obtain ⟨h1, h2⟩ := heq
    subst h2
    have : pre'.isEmpty = false := by
      rw [← h1]
      cases pre with
      | nil => exact absurd rfl hp
      | cons x xs => simp
    simp [this]
  · rename_i heq
    exact absurd (hs.symm.trans heq) (by simp)

theorem removeTags_of_gtFree {l : List Char} (h : gtFree l = true) :
    removeTags l = l := by
  induction l with
  | nil => simp [removeTags]
  | cons c rest ih =>
    simp only [gtFree, Bool.and_eq_true, bne_iff_ne] at h
    have hs : splitAtGt rest = none :=
      splitAtGt_none_iff.mpr (gtFree_iff.mp h.2)
    by_cases hc : c == '<'
    · have hceq : c = '<' := eq_of_beq hc
      subst hceq
      rw [removeTags_cons_none hs, ih h.2]
    · rw [removeTags_cons_ne (by simpa using hc), ih h.2]

theorem noTag_removeTags : ∀ l : List Char, noTag (removeTags l) = true
  | [] => by simp [removeTags_nil, noTag]
  | c :: rest => by
    by_cases hc : c == '<'
    · have hceq : c = '<' := eq_of_beq hc
      subst hceq
      cases hs : splitAtGt rest with
      | none =>
        have hg : gtFree rest = true :=
          gtFree_iff.mpr (splitAtGt_none_iff.mp hs)
        rw [removeTags_cons_none hs, removeTags_of_gtFree hg]
        exact noTag_cons (Or.inr (Or.inr hg)) (gtFree_noTag hg)
      | some p =>
        obtain ⟨pre, post⟩ := p
        by_cases hp : pre = []
        · subst hp
          have hrest : rest = '>' :: post := by
            have := splitAtGt_eq_append hs
            simpa using this
          rw [removeTags_cons_empty_pre hs, hrest, removeTags_cons_ne (by decide)]
          have hh : headIsGt ('>' :: removeTags post) = true := by simp [headIsGt]
          exact noTag_cons (Or.inr (Or.inl hh))
            (noTag_cons (Or.inl (by decide)) (noTag_removeTags post))
        · rw [removeTags_cons_matched hs hp]
          exact noTag_removeTags post
    · rw [removeTags_cons_ne (by simpa using hc)]
      have hne : c ≠ '<' := fun hh => hc (by simp [hh])
      exact noTag_cons (Or.inl hne) (noTag_removeTags rest)
termination_by l => l.length
decreasing_by
  all_goals simp only [List.length_cons]
  all_goals first
    | omega
    | (have h1 := splitAtGt_post_length hs
       simp only [List.length_cons] at h1
       omega)
    | (have h1 := splitAtGt_post_length hs
       omega)

theorem removeTags_length_le : ∀ l : List Char, (removeTags l).length ≤ l.length
  | [] => by simp [removeTags_nil]
  | c :: rest => by
    by_cases hc : c == '<'
    · have hceq : c = '<' := eq_of_beq hc
      subst hceq
      cases hs : splitAtGt rest with
      | none =>
        have h1 := removeTags_length_le rest
        rw [removeTags_cons_none hs]
        simp only [List.length_cons]
        omega
      | some p =>
        obtain ⟨pre, post⟩ := p
        by_cases hp : pre = []
        · subst hp
          have h1 := removeTags_length_le rest
          rw [removeTags_cons_empty_pre hs]
          simp only [List.length_cons]
          omega
        · have h1 := removeTags_length_le post
          have h2 := splitAtGt_post_length hs
          rw [removeTags_cons_matched hs hp]
          simp only [List.length_cons] at h2 ⊢
          omega
    · have h1 := removeTags_length_le rest
      rw [removeTags_cons_ne (by simpa using hc)]
      simp only [List.length_cons]
      omega
termination_by l => l.length
decreasing_by
  all_goals simp only [List.length_cons]
  all_goals first
    | omega
    | (have hd := splitAtGt_post_length hs
       omega)

theorem removeTags_of_noTag {l : List Char} (h : noTag l = true) :
    removeTags l = l := by
  induction l with
  | nil => exact removeTags_nil
  | cons c rest ih =>
    have htail := ih (noTag_tail h)
    by_cases hc : c == '<'
    · have hceq : c = '<' := eq_of_beq hc
      subst hceq
      rcases noTag_cons_cond h with h1 | h2 | h3
      · exact absurd rfl h1
      · obtain ⟨post, rfl⟩ : ∃ t, rest = '>' :: t := by
          cases rest with
          | nil => simp [headIsGt] at h2
          | cons x xs =>
            simp only [headIsGt] at h2
            exact ⟨xs, by rw [eq_of_beq h2]⟩
        have hs : splitAtGt ('>' :: post) = some ([], post) := by
          simp [splitAtGt]
        rw [removeTags_cons_empty_pre hs, htail]
      · have hs : splitAtGt rest = none :=
          splitAtGt_none_iff.mpr (gtFree_iff.mp h3)
        rw [removeTags_cons_none hs, htail]
    · rw [removeTags_cons_ne (by simpa using hc), htail]

theorem noTag_of_removeTags_eq : ∀ {l : List Char}, removeTags l = l → noTag l = true
  | [], _ => by simp [noTag]
  | c :: rest, h => by
    by_cases hc : c == '<'
    · have hceq : c = '<' := eq_of_beq hc
      subst hceq
      cases hs : splitAtGt rest with
      | none =>
        have hg : gtFree rest = true :=
          gtFree_iff.mpr (splitAtGt_none_iff.mp hs)
        exact noTag_cons (Or.inr (Or.inr hg)) (gtFree_noTag hg)
      | some p =>
        obtain ⟨pre, post⟩ := p
        by_cases hp : pre = []
        · subst hp
          have hrest : rest = '>' :: post := by
            have := splitAtGt_eq_append hs
            simpa using this
          rw [removeTags_cons_empty_pre hs, hrest, removeTags_cons_ne (by decide)] at h
          simp only [List.cons.injEq, true_and] at h
          have hh : headIsGt rest = true := by
            rw [hrest]; simp [headIsGt]
          refine noTag_cons (Or.inr (Or.inl hh)) ?_
          rw [hrest]
          exact noTag_cons (Or.inl (by decide)) (noTag_of_removeTags_eq h)
        · exfalso
          have hlen : (removeTags post).length ≤ post.length :=
            removeTags_length_le post
          have hpost := splitAtGt_post_length hs
          rw [removeTags_cons_matched hs hp] at h
          have hcontr : (removeTags post).length = ('<' :: rest).length := by rw [h]
          simp only [List.length_cons] at hcontr
          omega
    · have hne : c ≠ '<' := fun hh => hc (by simp [hh])
      rw [removeTags_cons_ne (by simpa using hc)] at h
      simp only [List.cons.injEq, true_and] at h
      exact noTag_cons (Or.inl hne) (noTag_of_removeTags_eq h)
termination_by l => l.length
decreasing_by
  all_goals simp only [List.length_cons]
  all_goals first
    | omega
    | (have h1 := splitAtGt_post_length hs
       omega)

theorem removeJatsOpen_nil : removeJatsOpen [] = [] := by
  simp [removeJatsOpen]

theorem removeJatsClose_nil : removeJatsClose [] = [] := by
  simp [removeJatsClose]

theorem removeJatsOpen_cons_ne {c : Char} {rest : List Char} (hc : (c == '<') = false) :
    removeJatsOpen (c :: rest) = c :: removeJatsOpen rest := by
  simp only [removeJatsOpen, hc, Bool.false_eq_true, if_false]

theorem removeJatsOpen_cons_noLit {rest : List Char} (hL : dropJatsLit rest = none) :
    removeJatsOpen ('<' :: rest) = '<' :: removeJatsOpen rest := by
  simp only [removeJatsOpen, beq_self_eq_true, if_true]
  split
  · rename_i afterLit heq
    exact absurd (hL.symm.trans heq) (by simp)
  · rfl

theorem removeJatsOpen_cons_lit_none {rest afterLit : List Char}
    (hL : dropJatsLit rest = some afterLit) (hs : splitAtGt afterLit = none) :
    removeJatsOpen ('<' :: rest) = '<' :: removeJatsOpen rest := by
  simp only [removeJatsOpen, beq_self_eq_true, if_true]
  split
  · rename_i afterLit' heq
    have hEq : afterLit = afterLit' := by
      have := hL.symm.trans heq
      simpa using this
    subst hEq
    split
    · rename_i pre post heq2
      exact absurd (hs.symm.trans heq2) (by simp)
    · rfl
  · rename_i heq
    exact absurd (heq.symm.trans hL) (by simp)

theorem removeJatsClose_cons_ne {c : Char} {rest : List Char} (hc : (c == '<') = false) :
    removeJatsClose (c :: rest) = c :: removeJatsClose rest := by
  simp only [removeJatsClose, hc, Bool.false_eq_true, if_false]

theorem removeJatsClose_cons_noLit {rest : List Char} (hL : dropSlashJatsLit rest = none) :
    removeJatsClose ('<' :: rest) = '<' :: removeJatsClose rest := by
  simp only [removeJatsClose, beq_self_eq_true, if_true]
  split
  · rename_i afterLit heq
    exact absurd (hL.symm.trans heq) (by simp)
  · rfl

theorem removeJatsClose_cons_lit_none {rest afterLit : List Char}
    (hL : dropSlashJatsLit rest = some afterLit) (hs : splitAtGt afterLit = none) :
    removeJatsClose ('<' :: rest) = '<' :: removeJatsClose rest := by
  simp only [removeJatsClose, beq_self_eq_true, if_true]
  split
  · rename_i afterLit' heq
    have hEq : afterLit = afterLit' := by
      have := hL.symm.trans heq
      simpa using this
    subst hEq
    split
    · rename_i pre post heq2
      exact absurd (hs.symm.trans heq2) (by simp)
    · rfl
  · rename_i heq
    exact absurd (heq.symm.trans hL) (by simp)

/-- Once the generic tag pass has run, the dedicated jats pass finds no
match either: any `/<jats:[^>]+>/` match would be a `/<[^>]+>/` match. -/
theorem removeJatsOpen_of_noTag {l : List Char} (h : noTag l = true) :
    removeJatsOpen l = l := by
  induction l with
  | nil => simp [removeJatsOpen]
  | cons c rest ih =>
    have htail := ih (noTag_tail h)
    by_cases hc : c == '<'
    · have hceq : c = '<' := eq_of_beq hc
      subst hceq
      cases hL : dropJatsLit rest with
      | none => rw [removeJatsOpen_cons_noLit hL, htail]
      | some afterLit =>
        have hshape := dropJatsLit_shape hL
        have hgt : gtFree rest = true := by
          rcases noTag_cons_cond h with h1 | h2 | h3
          · exact absurd rfl h1
          · rw [hshape] at h2
            simp [headIsGt] at h2
          · exact h3
        have hnone : splitAtGt afterLit = none := by
          rw [splitAtGt_none_iff]
          intro hmem
          have hmem2 : '>' ∈ rest := by
            rw [hshape]
            simp [hmem]
          exact absurd hmem2 (gtFree_iff.mp hgt)
        rw [removeJatsOpen_cons_lit_none hL hnone, htail]
    · rw [removeJatsOpen_cons_ne (by simpa using hc), htail]

theorem removeJatsClose_of_noTag {l : List Char} (h : noTag l = true) :
    removeJatsClose l = l := by
  induction l with
  | nil => simp [removeJatsClose]
  | cons c rest ih =>
    have htail := ih (noTag_tail h)
    by_cases hc : c == '<'
    · have hceq : c = '<' := eq_of_beq hc
      subst hceq
      cases hL : dropSlashJatsLit rest with
      | none => rw [removeJatsClose_cons_noLit hL, htail]
      | some afterLit =>
        have hshape := dropSlashJatsLit_shape hL
        have hgt : gtFree rest = true := by
          rcases noTag_cons_cond h with h1 | h2 | h3
          · exact absurd rfl h1
          · rw [hshape] at h2
            simp [headIsGt] at h2
          · exact h3
        have hnone : splitAtGt afterLit = none := by
          rw [splitAtGt_none_iff]
          intro hmem
          have hmem2 : '>' ∈ rest := by
            rw [hshape]
            simp [hmem]
          exact absurd hmem2 (gtFree_iff.mp hgt)
        rw [removeJatsClose_cons_lit_none hL hnone, htail]
    · rw [removeJatsClose_cons_ne (by simpa using hc), htail]

/-! ### Whitespace collapse: fixed points and preservation -/

theorem collapseWs_nil : collapseWs [] = [] := by
  simp [collapseWs]

theorem collapseWs_cons_ws {c : Char} {rest : List Char} (h : isJsWs c = true) :
    collapseWs (c :: rest) = ' ' :: collapseWs (rest.dropWhile isJsWs) := by
  simp only [collapseWs, h, if_true]

theorem collapseWs_cons_not {c : Char} {rest : List Char} (h : isJsWs c = false) :
    collapseWs (c :: rest) = c :: collapseWs rest := by
  simp only [collapseWs, h, Bool.false_eq_true, if_false]

theorem mem_collapseWs : ∀ {l : List Char} {c : Char}, c ∈ collapseWs l → c = ' ' ∨ c ∈ l
  | [], c, h => by rw [collapseWs_nil] at h; cases h
  | x :: rest, c, h => by
    by_cases hx : isJsWs x = true
    · rw [collapseWs_cons_ws hx] at h
      rcases List.mem_cons.mp h with h1 | h2
      · exact Or.inl h1
      · rcases mem_collapseWs h2 with h3 | h4
        · exact Or.inl h3
        · exact Or.inr (List.mem_cons_of_mem _ ((List.dropWhile_sublist isJsWs).subset h4))
    · rw [collapseWs_cons_not (by simpa using hx)] at h
      rcases List.mem_cons.mp h with h1 | h2
      · exact Or.inr (by simp [h1])
      · rcases mem_collapseWs h2 with h3 | h4
        · exact Or.inl h3
        · exact Or.inr (List.mem_cons_of_mem _ h4)
termination_by l => l.length
decreasing_by
  · have hd : (rest.dropWhile isJsWs).length ≤ rest.length :=
      (List.dropWhile_sublist isJsWs).length_le
    simp only [List.length_cons]
    omega
  · simp only [List.length_cons]
    omega

theorem gtFree_collapseWs {l : List Char} (h : gtFree l = true) :
    gtFree (collapseWs l) = true := by
  rw [gtFree_iff]
  intro hmem
  rcases mem_collapseWs hmem with h1 | h2
  · cases h1
  · exact absurd h2 (gtFree_iff.mp h)

theorem noTag_dropWhile {l : List Char} (h : noTag l = true) :
    noTag (l.dropWhile isJsWs) = true := by
  induction l with
  | nil => simpa using h
  | cons c rest ih =>
    rw [List.dropWhile_cons]
    split
    · exact ih (noTag_tail h)
    · exact h

theorem noTag_collapseWs : ∀ {l : List Char}, noTag l = true → noTag (collapseWs l) = true
  | [], _ => by rw [collapseWs_nil]; rfl
  | c :: rest, h => by
    by_cases hx : isJsWs c = true
    · rw [collapseWs_cons_ws hx]
      exact noTag_cons (Or.inl (by decide))
        (noTag_collapseWs (noTag_dropWhile (noTag_tail h)))
    · rw [collapseWs_cons_not (by simpa using hx)]
      rcases noTag_cons_cond h with h1 | h2 | h3
      · exact noTag_cons (Or.inl h1) (noTag_collapseWs (noTag_tail h))
      · have hrec := noTag_collapseWs (noTag_tail h)
        cases rest with
        | nil => simp [headIsGt] at h2
        | cons y ys =>
          simp only [headIsGt] at h2
          have hy : y = '>' := eq_of_beq h2
          subst hy
          have hyws : isJsWs '>' = false := by decide
          rw [collapseWs_cons_not hyws] at hrec
          rw [collapseWs_cons_not hyws]
          have hh : headIsGt ('>' :: collapseWs ys) = true := by simp [headIsGt]
          exact noTag_cons (Or.inr (Or.inl hh)) hrec
      · exact noTag_cons (Or.inr (Or.inr (gtFree_collapseWs h3)))
          (noTag_collapseWs (noTag_tail h))
termination_by l => l.length
decreasing_by
  all_goals simp only [List.length_cons]
  all_goals first
    | omega
    | (have hd : (rest.dropWhile isJsWs).length ≤ rest.length :=
        (List.dropWhile_sublist isJsWs).length_le
       omega)

/-! ### The collapsed-whitespace invariant `wsOk` -/

/-- Fixed-point characterization of the whitespace collapse: every
whitespace character is a plain space and no two whitespace characters
are adjacent. -/
def wsOk : List Char → Bool
  | [] => true
  | [c] => !isJsWs c || c == ' '
  | c :: d :: rest => (!isJsWs c || (c == ' ' && !isJsWs d)) && wsOk (d :: rest)

def noWsHead : List Char → Bool
  | [] => true
  | c :: _ => !isJsWs c

theorem wsOk_tail {c : Char} {rest : List Char} (h : wsOk (c :: rest) = true) :
    wsOk rest = true := by
  cases rest with
  | nil => rfl
  | cons d r =>
    simp only [wsOk, Bool.and_eq_true] at h
    exact h.2

theorem wsOk_cons_not {c : Char} {m : List Char} (hc : isJsWs c = false)
    (h : wsOk m = true) : wsOk (c :: m) = true := by
  cases m with
  | nil => simp [wsOk, hc]
  | cons d r => simp [wsOk, hc, h]

theorem wsOk_cons_space {m : List Char} (hm : noWsHead m = true)
    (h : wsOk m = true) : wsOk (' ' :: m) = true := by
  cases m with
  | nil => decide
  | cons d r =>
    simp only [noWsHead] at hm
    simp [wsOk, hm, h]

theorem collapseWs_of_wsOk {l : List Char} (h : wsOk l = true) :
    collapseWs l = l := by
  induction l with
  | nil => exact collapseWs_nil
  | cons c rest ih =>
    by_cases hx : isJsWs c = true
    · cases rest with
      | nil =>
        have hsp : c = ' ' := by
          simp only [wsOk, hx, Bool.not_true, Bool.false_or, beq_iff_eq] at h
          exact h
        subst hsp
        rw [collapseWs_cons_ws hx, show List.dropWhile isJsWs [] = [] from rfl,
          collapseWs_nil]
      | cons d r =>
        simp only [wsOk, hx, Bool.not_true, Bool.false_or, Bool.and_eq_true,
          Bool.not_eq_true', beq_iff_eq] at h
        obtain ⟨⟨hsp, hd⟩, htl⟩ := h
        subst hsp
        rw [collapseWs_cons_ws hx, List.dropWhile_cons_of_neg (by simp [hd]), ih htl]
    · rw [collapseWs_cons_not (by simpa using hx), ih (wsOk_tail h)]

theorem noWsHead_collapseWs {m : List Char} (hm : noWsHead m = true) :
    noWsHead (collapseWs m) = true := by
  cases m with
  | nil => rw [collapseWs_nil]; rfl
  | cons c r =>
    simp only [noWsHead] at hm
    rw [collapseWs_cons_not (by simpa using hm)]
    simpa [noWsHead] using hm

theorem noWsHead_dropWhile (l : List Char) :
    noWsHead (l.dropWhile isJsWs) = true := by
  induction l with
  | nil => rfl
  | cons c rest ih =>
    rw [List.dropWhile_cons]
    split
    · exact ih
    · rename_i hnb
      simp only [noWsHead]
      simpa using hnb

theorem wsOk_collapseWs : ∀ l : List Char, wsOk (collapseWs l) = true
  | [] => by rw [collapseWs_nil]; rfl
  | c :: rest => by
    by_cases hx : isJsWs c = true
    · rw [collapseWs_cons_ws hx]
      exact wsOk_cons_space
        (noWsHead_collapseWs (noWsHead_dropWhile rest))
        (wsOk_collapseWs (rest.dropWhile isJsWs))
    · rw [collapseWs_cons_not (by simpa using hx)]
      exact wsOk_cons_not (by simpa using hx) (wsOk_collapseWs rest)
termination_by l => l.length
decreasing_by
  all_goals simp only [List.length_cons]
  all_goals first
    | omega
    | (have hd : (rest.dropWhile isJsWs).length ≤ rest.length :=
        (List.dropWhile_sublist isJsWs).length_le
       omega)

/-! ### Transport of the invariants along append, prefix and suffix -/

theorem gtFree_append_left {a b : List Char} (h : gtFree (a ++ b) = true) :
    gtFree a = true := by
  rw [gtFree_iff] at h ⊢
  exact fun hm => h (List.mem_append_left _ hm)

theorem gtFree_append {a b : List Char} (ha : gtFree a = true) (hb : gtFree b = true) :
    gtFree (a ++ b) = true := by
  rw [gtFree_iff] at ha hb ⊢
  intro hm
  rcases List.mem_append.mp hm with h | h
  · exact ha h
  · exact hb h

theorem noTag_append_right {a b : List Char} (h : noTag (a ++ b) = true) :
    noTag b = true := by
  induction a with
  | nil => exact h
  | cons c a' ih => exact ih (noTag_tail h)

theorem noTag_append_left {a b : List Char} (h : noTag (a ++ b) = true) :
    noTag a = true := by
  induction a with
  | nil => rfl
  | cons c a' ih =>
    refine noTag_cons ?_ (ih (noTag_tail h))
    rcases noTag_cons_cond h with h1 | h2 | h3
    · exact Or.inl h1
    · cases a' with
      | nil => exact Or.inr (Or.inr rfl)
      | cons y a'' =>
        simp only [List.cons_append, headIsGt] at h2
        exact Or.inr (Or.inl (by simpa [headIsGt] using h2))
    · exact Or.inr (Or.inr (gtFree_append_left h3))

theorem noTag_of_safe {b : List Char} (hb : ∀ c ∈ b, c ≠ '<' ∧ c ≠ '>') :
    noTag b = true := by
  induction b with
  | nil => rfl
  | cons c r ih =>
    exact noTag_cons (Or.inl (hb c (by simp)).1)
      (ih fun d hd => hb d (List.mem_cons_of_mem _ hd))

theorem gtFree_of_safe {b : List Char} (hb : ∀ c ∈ b, c ≠ '<' ∧ c ≠ '>') :
    gtFree b = true := by
  rw [gtFree_iff]
  intro hm
  exact (hb _ hm).2 rfl

theorem noTag_append_safe {a b : List Char} (ha : noTag a = true)
    (hb : ∀ c ∈ b, c ≠ '<' ∧ c ≠ '>') : noTag (a ++ b) = true := by
  induction a with
  | nil => exact noTag_of_safe hb
  | cons c a' ih =>
    refine noTag_cons ?_ (ih (noTag_tail ha))
    rcases noTag_cons_cond ha with h1 | h2 | h3
    · exact Or.inl h1
    · cases a' with
      | nil => simp [headIsGt] at h2
      | cons y a'' =>
        simp only [headIsGt] at h2
        exact Or.inr (Or.inl (by simpa [headIsGt] using h2))
    · exact Or.inr (Or.inr (gtFree_append h3 (gtFree_of_safe hb)))

theorem wsOk_append_left {a b : List Char} (h : wsOk (a ++ b) = true) :
    wsOk a = true := by
  induction a with
  | nil => rfl
  | cons c a' ih =>
    cases a' with
    | nil =>
      cases b with
      | nil => simpa using h
      | cons d r =>
        simp only [List.cons_append, List.nil_append, wsOk, Bool.and_eq_true] at h
        by_cases hws : isJsWs c = true
        · have hsp : (c == ' ') = true := by
            have h1 := h.1
            simp only [hws, Bool.not_true, Bool.false_or, Bool.and_eq_true] at h1
            exact h1.1
          simp [wsOk, eq_of_beq hsp]
        · simp [wsOk, by simpa using hws]
    | cons d a'' =>
      simp only [List.cons_append, wsOk, Bool.and_eq_true] at h
      have htl : wsOk (d :: a'') = true := ih (by simpa using h.2)
      simp only [wsOk, Bool.and_eq_true]
      exact ⟨h.1, htl⟩

theorem wsOk_of_nonws {b : List Char} (hb : ∀ c ∈ b, isJsWs c = false) :
    wsOk b = true := by
  induction b with
  | nil => rfl
  | cons c r ih =>
    exact wsOk_cons_not (hb c (by simp))
      (ih fun d hd => hb d (List.mem_cons_of_mem _ hd))

theorem wsOk_append_nonws {a b : List Char} (ha : wsOk a = true)
    (hb : ∀ c ∈ b, isJsWs c = false) : wsOk (a ++ b) = true := by
  induction a with
  | nil => exact wsOk_of_nonws hb
  | cons c a' ih =>
    cases a' with
    | nil =>
      cases b with
      | nil => simpa using ha
      | cons d r =>
        simp only [List.nil_append, List.cons_append]
        have hbody : wsOk (d :: r) = true := wsOk_of_nonws hb
        by_cases hws : isJsWs c = true
        · have hsp : (c == ' ') = true := by
            simp only [wsOk, hws, Bool.not_true, Bool.false_or] at ha
            exact ha
          have hd : isJsWs d = false := hb d (by simp)
          simp [wsOk, hsp, hws, hd, hbody]
        · simp [wsOk, by simpa using hws, hbody]
    | cons d a'' =>
      simp only [List.cons_append, wsOk, Bool.and_eq_true] at ha ⊢
      exact ⟨ha.1, by simpa using ih ha.2⟩

theorem wsOk_take {l : List Char} (h : wsOk l = true) (n : Nat) :
    wsOk (l.take n) = true := by
  have := List.take_append_drop n l
  exact wsOk_append_left (by rw [this]; exact h)

theorem noTag_take {l : List Char} (h : noTag l = true) (n : Nat) :
    noTag (l.take n) = true := by
  have := List.take_append_drop n l
  exact noTag_append_left (by rw [this]; exact h)

theorem noWsHead_append_left {x y : List Char} (h : noWsHead (x ++ y) = true) :
    noWsHead x = true := by
  cases x with
  | nil => rfl
  | cons c r => simpa [noWsHead] using h

theorem noWsHead_append {x y : List Char} (hx : noWsHead x = true)
    (hy : noWsHead y = true) : noWsHead (x ++ y) = true := by
  cases x with
  | nil => simpa using hy
  | cons c r => simpa [noWsHead] using hx

theorem noWsHead_take {l : List Char} (h : noWsHead l = true) (n : Nat) :
    noWsHead (l.take n) = true := by
  cases l with
  | nil => simp [noWsHead]
  | cons c r =>
    cases n with
    | zero => rfl
    | succ m => simpa [noWsHead] using h

/-! ### Trim: fixed points and preservation -/

theorem trimLeftWs_eq_self {l : List Char} (h : noWsHead l = true) :
    trimLeftWs l = l := by
  cases l with
  | nil => rfl
  | cons c r =>
    simp only [noWsHead] at h
    simp only [trimLeftWs]
    rw [List.dropWhile_cons_of_neg (by simpa using h)]

theorem trimRightWs_eq_self {l : List Char} (h : noWsHead l.reverse = true) :
    trimRightWs l = l := by
  unfold trimRightWs
  rw [show l.reverse.dropWhile isJsWs = trimLeftWs l.reverse from rfl,
    trimLeftWs_eq_self h, List.reverse_reverse]

theorem trimRightWs_append_decomp (l : List Char) :
    l = trimRightWs l ++ (l.reverse.takeWhile isJsWs).reverse := by
  have h0 := List.takeWhile_append_dropWhile isJsWs l.reverse
  have h1 := congrArg List.reverse h0
  rw [List.reverse_append, List.reverse_reverse] at h1
  exact h1.symm

theorem trimRightWs_reverse (l : List Char) :
    (trimRightWs l).reverse = l.reverse.dropWhile isJsWs := by
  simp [trimRightWs]

theorem noTag_trimWs {l : List Char} (h : noTag l = true) :
    noTag (trimWs l) = true := by
  unfold trimWs
  have hleft : noTag (trimLeftWs l) = true := by
    have hd := List.takeWhile_append_dropWhile isJsWs l
    exact @noTag_append_right (l.takeWhile isJsWs) (l.dropWhile isJsWs)
      (by rw [hd]; exact h)
  have hdec := trimRightWs_append_decomp (trimLeftWs l)
  exact noTag_append_left (by rw [← hdec]; exact hleft)

theorem wsOk_append_right {a b : List Char} (h : wsOk (a ++ b) = true) :
    wsOk b = true := by
  induction a with
  | nil => exact h
  | cons c a' ih => exact ih (wsOk_tail h)

theorem wsOk_trimWs {l : List Char} (h : wsOk l = true) :
    wsOk (trimWs l) = true := by
  unfold trimWs
  have hleft : wsOk (trimLeftWs l) = true := by
    have hd := List.takeWhile_append_dropWhile isJsWs l
    exact @wsOk_append_right (l.takeWhile isJsWs) (l.dropWhile isJsWs)
      (by rw [hd]; exact h)
  have hdec := trimRightWs_append_decomp (trimLeftWs l)
  exact wsOk_append_left (by rw [← hdec]; exact hleft)

theorem noWsHead_trimWs (l : List Char) : noWsHead (trimWs l) = true := by
  unfold trimWs
  have hleft : noWsHead (trimLeftWs l) = true := noWsHead_dropWhile l
  have hdec := trimRightWs_append_decomp (trimLeftWs l)
  exact noWsHead_append_left (by rw [← hdec]; exact hleft)

theorem noWsHead_reverse_trimWs (l : List Char) :
    noWsHead (trimWs l).reverse = true := by
  unfold trimWs
  rw [trimRightWs_reverse]
  exact noWsHead_dropWhile _

/-! ### Truncation and the full pipeline -/

theorem ellipsis_safe : ∀ c ∈ ellipsis, c ≠ '<' ∧ c ≠ '>' := by decide

theorem ellipsis_nonws : ∀ c ∈ ellipsis, isJsWs c = false := by decide

theorem truncate500_idem (l : List Char) :
    truncate500 (truncate500 l) = truncate500 l := by
  unfold truncate500
  by_cases h : 500 < l.length
  · rw [if_pos h]
    have htk : (l.take 500).length = 500 := by
      rw [List.length_take]
      omega
    have hlen : (l.take 500 ++ ellipsis).length = 503 := by
      simp [ellipsis, htk]
    rw [if_pos (by rw [hlen]; omega), List.take_left' htk]
  · rw [if_neg h, if_neg h]

theorem cleanCore_eq_truncate {l : List Char}
    (h1 : noTag l = true) (h2 : wsOk l = true)
    (h3 : noWsHead l = true) (h4 : noWsHead l.reverse = true) :
    cleanCore l = truncate500 l := by
  unfold cleanCore
  rw [removeTags_of_noTag h1, removeJatsOpen_of_noTag h1, removeJatsClose_of_noTag h1,
    collapseWs_of_wsOk h2]
  unfold trimWs
  rw [show trimLeftWs l = l from trimLeftWs_eq_self h3, trimRightWs_eq_self h4]

theorem cleanCore_tidy (l : List Char) :
    noTag (cleanCore l) = true ∧ wsOk (cleanCore l) = true ∧
    noWsHead (cleanCore l) = true ∧ noWsHead (cleanCore l).reverse = true := by
  have hNT := noTag_removeTags l
  have hO1 : removeJatsClose (removeJatsOpen (removeTags l)) = removeTags l := by
    rw [removeJatsOpen_of_noTag hNT, removeJatsClose_of_noTag hNT]
  unfold cleanCore
  rw [hO1]
  have hmNoTag : noTag (trimWs (collapseWs (removeTags l))) = true :=
    noTag_trimWs (noTag_collapseWs hNT)
  have hmWsOk : wsOk (trimWs (collapseWs (removeTags l))) = true :=
    wsOk_trimWs (wsOk_collapseWs _)
  have hmHead : noWsHead (trimWs (collapseWs (removeTags l))) = true :=
    noWsHead_trimWs _
  have hmRev : noWsHead (trimWs (collapseWs (removeTags l))).reverse = true :=
    noWsHead_reverse_trimWs _
  generalize hm : trimWs (collapseWs (removeTags l)) = m at hmNoTag hmWsOk hmHead hmRev
  unfold truncate500
  by_cases h : 500 < m.length
  · rw [if_pos h]
    have hm0 : m ≠ [] := by
      intro hnil
      rw [hnil] at h
      simp at h
    refine ⟨noTag_append_safe (noTag_take hmNoTag 500) ellipsis_safe,
      wsOk_append_nonws (wsOk_take hmWsOk 500) ellipsis_nonws,
      noWsHead_append (noWsHead_take hmHead 500) (by decide),
      ?_⟩
    rw [List.reverse_append, show ellipsis.reverse = '.' :: '.' :: '.' :: [] from rfl,
      List.cons_append]
    show (!isJsWs '.') = true
    decide
  · rw [if_neg h]
    exact ⟨hmNoTag, hmWsOk, hmHead, hmRev⟩

theorem cleanCore_idem (l : List Char) : cleanCore (cleanCore l) = cleanCore l := by
  obtain ⟨h1, h2, h3, h4⟩ := cleanCore_tidy l
  rw [cleanCore_eq_truncate h1 h2 h3 h4]
  unfold cleanCore
  rw [truncate500_idem]

/-! ## Abstract providers and the Best-Abstract Selector -/

/-- The result record a provider adapter returns; fields mirror the JS
object literals. `title` and `quality_score` are absent (`none`) on
failure records. -/
structure ProviderResult where
  source : String
  abstract : String
  success : Bool
  title : Option String := none
  quality_score : Option Int := none

def crossrefFailure : ProviderResult :=
  { source := "crossref", abstract := "N/A", success := false }

/-- The success record built by `getAbstractFromCrossref` (lines 182–188):
the extracted abstract runs through the Text Normalizer, and the quality
score is the fixed constant 9. -/
def crossrefSuccess (title abstract : String) : ProviderResult :=
  { source := "crossref", abstract := cleanAbstract abstract, success := true,
    title := some title, quality_score := some 9 }

def pubmedFailure : ProviderResult :=
  { source := "pubmed", abstract := "N/A", success := false }

/-- The success record built by `getAbstractFromPubMed` (lines 257–263):
normalized abstract, fixed quality score 8. -/
def pubmedSuccess (title abstract : String) : ProviderResult :=
  { source := "pubmed", abstract := cleanAbstract abstract, success := true,
    title := some title, quality_score := some 8 }

def noneResult : ProviderResult :=
  { source := "none", abstract := "N/A", success := false }

/-- One provider call, as recorded in a trace (in call order). -/
inductive ProviderCall where
  | scopus (query : Json) (count : Json)
  | crossref (doi : Json)
  | pubmed (doi : Json)

/-- The network-dependent outcomes for one session: the JSON body the
Scopus search ends with (already `{}` on transport failure or a non-200
status, lines 144–152), and each abstract adapter's outcome for a DOI
that passed its sentinel guard (lines 163–197 and 208–274; any transport
failure yields the adapter's failure record, never an exception). -/
structure Net where
  scopus : Json → Json → Json
  crossref : Json → ProviderResult
  pubmed : Json → ProviderResult

/-- The adapter `searchScopus(query, count)` (lines 127–153): one GET with parameters
`{query, count, start: 0, apiKey}`; the recorded call carries exactly the
query and count forwarded. -/
def searchScopus (net : Net) (query count : Json) : Json × List ProviderCall :=
  (net.scopus query count, [ProviderCall.scopus query count])

/-- The adapter `getAbstractFromCrossref(doi)` (lines 158–198): `!doi || doi === "N/A"`
short-circuits to the failure record without a network call. -/
def getAbstractFromCrossref (net : Net) (doi : Json) :
    ProviderResult × List ProviderCall :=
  if !jsTruthy doi || doi.isStr "N/A" then (crossrefFailure, [])
  else (net.crossref doi, [ProviderCall.crossref doi])

/-- The adapter `getAbstractFromPubMed(doi)` (lines 203–275): same sentinel guard. -/
def getAbstractFromPubMed (net : Net) (doi : Json) :
    ProviderResult × List ProviderCall :=
  if !jsTruthy doi || doi.isStr "N/A" then (pubmedFailure, [])
  else (net.pubmed doi, [ProviderCall.pubmed doi])

/-- The `results.reduce` body (lines 316–318): keep the result with the
strictly greater `quality_score`, `(x.quality_score || 0)` reading a
missing score as 0. -/
def pickBetter (best current : ProviderResult) : ProviderResult :=
  if best.quality_score.getD 0 < current.quality_score.getD 0 then current else best

/-- The selection logic of `getBestAbstract` (lines 298–322): the loop
pushes each successful result in call order (crossref first, then
pubmed), and `reduce(pickBetter)` starts from the first success. The
fixed 300 ms pause between the calls has no bearing on the value. -/
def selectBest (crossrefResult pubmedResult : ProviderResult) : ProviderResult :=
  match ([crossrefResult, pubmedResult]).filter (fun r => r.success) with
  | [] => noneResult
  | first :: rest => rest.foldl pickBetter first

/-- The selector `getBestAbstract(doi)` (lines 298–322) with its two adapter calls. -/
def getBestAbstract (net : Net) (doi : Json) : ProviderResult × List ProviderCall :=
  let c := getAbstractFromCrossref net doi
  let p := getAbstractFromPubMed net doi
  (selectBest c.1 p.1, c.2 ++ p.2)

/-! ## Paper assembly and the two tools -/

/-- A thrown JS error, abstracted to its message. -/
abbrev JsErr := String

structure Paper where
  title : Json
  authors : Json
  publication_name : Json
  publication_date : Json
  doi : Json
  cited_by_count : Json
  scopus_id : String
  scopus_url : String
  abstract : String
  abstract_source : String

/-- JS `String.prototype.replace` with a string pattern: replace the
first occurrence only. -/
def jsReplaceOnce (s pat rep : String) : String :=
  match s.splitOn pat with
  | [] => s
  | [_] => s
  | a :: b :: rest => a ++ rep ++ String.intercalate pat (b :: rest)

/-- The computation `(entry['dc:identifier'] || '').replace('SCOPUS_ID:', '')` (line 354):
on a truthy non-string value `.replace` is not a function and throws. -/
def scopusIdOf (v : Json) : Except JsErr String :=
  match v with
  | .str s => .ok (jsReplaceOnce s "SCOPUS_ID:" "")
  | _ => .error "entry.replace is not a function"

/-- JS `for...of` over a value: arrays iterate their elements, strings
iterate their characters, any other (truthy) value throws a TypeError. -/
def jsIterate : Json → Except JsErr (List Json)
  | .arr xs => .ok xs
  | .str s => .ok (s.data.map (fun ch => Json.str (String.singleton ch)))
  | v => .error (v.toDisplayString ++ " is not iterable")

def jsTruthyU : Option Json → Bool
  | none => false
  | some j => jsTruthy j

/-- A `{type: "text", text: ...}` content item. -/
def textContent (s : String) : Json :=
  .obj [("type", .str "text"), ("text", .str s)]

/-- One loop iteration of `searchPapersWithAbstracts` (lines 335–360):
extract the DOI (`entry['prism:doi'] || 'N/A'`), enrich through the
selector unless the DOI is the sentinel, then build the paper record.
A `null` entry throws on the first property access (before any provider
call); a truthy non-string `dc:identifier` throws at the `.replace` call
(after the provider calls already ran). -/
def assemblePaper (net : Net) (entry : Json) : Except JsErr Paper × List ProviderCall :=
  match entry with
  | .null => (.error "Cannot read properties of null", [])
  | _ =>
    let doi := jsOrElse (entry.get? "prism:doi") (.str "N/A")
    let lookup : Option (ProviderResult × List ProviderCall) :=
      if doi.isStr "N/A" then none else some (getBestAbstract net doi)
    let tr := match lookup with
      | some pr => pr.2
      | none => []
    let abstract : String := match lookup with
      | some pr => if pr.1.success then pr.1.abstract else "N/A"
      | none => "N/A"
    let sourceTag : String := match lookup with
      | some pr => if pr.1.source == "" then "N/A" else pr.1.source
      | none => "N/A"
    (match scopusIdOf (jsOrElse (entry.get? "dc:identifier") (.str "")) with
     | .error e => .error e
     | .ok sid => .ok {
         title := jsOrElse (entry.get? "dc:title") (.str "N/A"),
         authors := jsOrElse (entry.get? "dc:creator") (.str "N/A"),
         publication_name := jsOrElse (entry.get? "prism:publicationName") (.str "N/A"),
         publication_date := jsOrElse (entry.get? "prism:coverDate") (.str "N/A"),
         doi := doi,
         cited_by_count := jsOrElse (entry.get? "citedby-count") (.num 0),
         scopus_id := sid,
         scopus_url := "https://www.scopus.com/inward/record.uri?eid=" ++
           (jsOrElse (entry.get? "eid") (.str "")).toDisplayString,
         abstract := abstract,
         abstract_source := sourceTag }, tr)

def assembleAll (net : Net) : List Json → Except JsErr (List Paper) × List ProviderCall
  | [] => (.ok [], [])
  | e :: rest =>
    match assemblePaper net e with
    | (.error msg, tr) => (.error msg, tr)
    | (.ok p, tr) =>
      match assembleAll net rest with
      | (.error msg, tr2) => (.error msg, tr ++ tr2)
      | (.ok ps, tr2) => (.ok (p :: ps), tr ++ tr2)

/-- The search `searchPapersWithAbstracts(query, count)` (lines 327–366): the Scopus
search runs first; with a truthy `results['search-results']` the entries
(`.entry || []`) are iterated, else the empty list is returned. -/
def searchPapersWithAbstracts (net : Net) (query count : Json) :
    Except JsErr (List Paper) × List ProviderCall :=
  let scall := searchScopus net query count
  let results := scall.1
  let inner : Except JsErr (List Paper) × List ProviderCall :=
    if jsTruthy results && jsTruthyU (results.get? "search-results") then
      let sr := jsOrElse (results.get? "search-results") (.obj [])
      let entriesVal := jsOrElse (sr.get? "entry") (.arr [])
      match jsIterate entriesVal with
      | .error e => (.error e, [])
      | .ok entries => assembleAll net entries
    else (.ok [], [])
  (inner.1, scall.2 ++ inner.2)

/-- One numbered block of the search-result text (lines 494–511). -/
def paperBlock (i : Nat) (p : Paper) : String :=
  "[" ++ toString (i + 1) ++ "] " ++ p.title.toDisplayString ++ "\n" ++
  "저자: " ++ p.authors.toDisplayString ++ "\n" ++
  "저널: " ++ p.publication_name.toDisplayString ++ "\n" ++
  "발행일: " ++ p.publication_date.toDisplayString ++ "\n" ++
  "인용: " ++ p.cited_by_count.toDisplayString ++ "\n" ++
  "DOI: " ++ p.doi.toDisplayString ++ "\n" ++
  (if p.abstract ≠ "N/A" then
    "초록 (" ++ p.abstract_source ++ "): " ++ p.abstract ++ "\n"
   else "초록: 없음\n") ++
  "Scopus URL: " ++ p.scopus_url ++ "\n" ++
  String.mk (List.replicate 50 '-') ++ "\n"

def searchResultText (query : Json) (papers : List Paper) : String :=
  "\u0027" ++ query.toDisplayString ++ "\u0027 키워드로 " ++
    toString papers.length ++ "개 논문을 찾았습니다:\n\n" ++
  String.join (papers.enum.map (fun ip => paperBlock ip.1 ip.2))

/-- The tool `searchPapersTool(arguments_)` (lines 475–514): `arguments_.query || ""`
and `arguments_.count || 10`, a prompt when the query is falsy, otherwise
the assembled search text. -/
def searchPapersTool (net : Net) (args : Json) :
    Except JsErr (List Json) × List ProviderCall :=
  let query := jsOrElse (args.get? "query") (.str "")
  let count := jsOrElse (args.get? "count") (.num 10)
  if !jsTruthy query then
    (.ok [textContent "검색할 키워드를 입력해주세요."], [])
  else
    let pr := searchPapersWithAbstracts net query count
    (match pr.1 with
     | .error e => .error e
     | .ok papers =>
       if papers.length = 0 then
         .ok [textContent ("\u0027" ++ query.toDisplayString ++
           "\u0027 키워드로 검색된 논문이 없습니다.")]
       else .ok [textContent (searchResultText query papers)], pr.2)

/-- The tool `getAbstractByDoiTool(arguments_)` (lines 516–536). -/
def getAbstractByDoiTool (net : Net) (args : Json) :
    Except JsErr (List Json) × List ProviderCall :=
  let doi := jsOrElse (args.get? "doi") (.str "")
  if !jsTruthy doi then (.ok [textContent "DOI를 입력해주세요."], [])
  else
    let pr := getBestAbstract net doi
    (if pr.1.success then
       .ok [textContent ("DOI: " ++ doi.toDisplayString ++ "\n" ++
         "제목: " ++ (match pr.1.title with
           | some t => if t == "" then "N/A" else t
           | none => "N/A") ++ "\n" ++
         "초록 소스: " ++ pr.1.source ++ "\n" ++
         "초록: " ++ pr.1.abstract ++ "\n")]
     else
       .ok [textContent ("DOI \u0027" ++ doi.toDisplayString ++
         "\u0027에 대한 초록을 찾을 수 없습니다.")], pr.2)

/-! ## The MCP server and the protocol session -/

structure RpcError where
  code : Int
  message : String

/-- A serialized response line. `jsonrpc` is always `"2.0"`; an `id` of
`none` models a JS `undefined` id, which `JSON.stringify` omits. -/
structure RpcResponse where
  id : Option Json
  result : Option Json
  error : Option RpcError

/-- The static `initialize` result (lines 381–394). -/
def initializeResult : Json :=
  .obj [("protocolVersion", .str "2024-11-05"),
        ("capabilities", .obj [("tools", .obj [])]),
        ("serverInfo", .obj [("name", .str "abstract-search"),
                             ("version", .str "1.0.0")])]

/-- The handler `handleInitialize` (lines 376–395). The `initialized` flag it sets is
never read anywhere in the source, so the response is the only observable
effect. -/
def handleInitializeRpc (req : Json) : RpcResponse :=
  { id := req.get? "id", result := some initializeResult, error := none }

/-- The two advertised tool descriptors (lines 400–434). -/
def toolDescriptors : Json :=
  .arr [
    .obj [("name", .str "search_papers"),
          ("description", .str "키워드로 논문을 검색하고 초록을 가져옵니다."),
          ("inputSchema", .obj [
            ("type", .str "object"),
            ("properties", .obj [
              ("query", .obj [("type", .str "string"),
                              ("description", .str "검색할 키워드")]),
              ("count", .obj [("type", .str "integer"),
                              ("description", .str "검색할 논문 수 (기본값: 10, 최대: 50)"),
                              ("default", .num 10)])]),
            ("required", .arr [.str "query"])])],
    .obj [("name", .str "get_abstract_by_doi"),
          ("description", .str "DOI로 특정 논문의 초록을 가져옵니다."),
          ("inputSchema", .obj [
            ("type", .str "object"),
            ("properties", .obj [
              ("doi", .obj [("type", .str "string"),
                            ("description", .str "논문의 DOI")])]),
            ("required", .arr [.str "doi"])])]]

def handleListTools (req : Json) : RpcResponse :=
  { id := req.get? "id", result := some (.obj [("tools", toolDescriptors)]),
    error := none }

/-- The handler `handleCallTool(request)` (lines 445–473): dispatch on `params.name`;
a tool-level exception is caught by the inner try and reported as content
text; the response is always a success response carrying
`result.content`, never an RPC error. -/
def handleCallTool (net : Net) (req : Json) : RpcResponse × List ProviderCall :=
  let params := jsOrElse (req.get? "params") (.obj [])
  let name := params.get? "name"
  let args := jsOrElse (params.get? "arguments") (.obj [])
  let r : Except JsErr (List Json) × List ProviderCall :=
    if isStrVal name "search_papers" then searchPapersTool net args
    else if isStrVal name "get_abstract_by_doi" then getAbstractByDoiTool net args
    else (.ok [textContent ("알 수 없는 도구: " ++ jsDisplayU name)], [])
  ({ id := req.get? "id",
     result := some (.obj [("content", .arr (match r.1 with
       | .ok items => items
       | .error msg => [textContent ("도구 실행 중 오류가 발생했습니다: " ++ msg)]))]),
     error := none }, r.2)

/-- Method dispatch of the line handler (lines 586–607). Property access
on a parsed `null` line throws a TypeError. -/
def dispatch (net : Net) (req : Json) :
    Except JsErr (Option RpcResponse × List ProviderCall) :=
  match req with
  | .null => .error "Cannot read properties of null"
  | _ =>
    let method := req.get? "method"
    if isStrVal method "initialize" then
      .ok (some (handleInitializeRpc req), [])
    else if isStrVal method "tools/list" then
      .ok (some (handleListTools req), [])
    else if isStrVal method "tools/call" then
      let rc := handleCallTool net req
      .ok (some rc.1, rc.2)
    else if isStrVal method "notifications/initialized" then
      .ok (none, [])
    else
      .ok (some { id := req.get? "id", result := none,
                  error := some { code := -32601,
                                  message := "Method not found: " ++
                                    jsDisplayU method } }, [])

/-- One input line as seen by the line handler: blank (early return at
line 575), a line `JSON.parse` rejects (with the parse error's message),
or the parsed JSON value. -/
inductive LineInput where
  | blank
  | unparsable (msg : String)
  | parsed (request : Json)

/-- What one handler invocation does: the protocol-stream lines written
(in order), the provider calls made, and whether the async callback
rejected (an exception escaped the handler). -/
structure SessionStep where
  outputs : List RpcResponse
  calls : List ProviderCall
  crashed : Bool

/-- One iteration of the `rl.on` line handler (lines 573–626). When any
exception reaches the catch block — a `JSON.parse` failure, or the
TypeError from dispatching on a parsed `null` — the catch block itself
throws before writing anything: `request` at line 618 is a `const` scoped
to the `try` block, so reading it in the catch block raises a
ReferenceError. The `-32603` error response built there is therefore
never written, and the async callback rejects (an unhandled rejection,
fatal on current Node). -/
def processLine (net : Net) (input : LineInput) : SessionStep :=
  match input with
  | .blank => { outputs := [], calls := [], crashed := false }
  | .unparsable _ => { outputs := [], calls := [], crashed := true }
  | .parsed req =>
    match dispatch net req with
    | .error _ => { outputs := [], calls := [], crashed := true }
    | .ok (none, tr) => { outputs := [], calls := tr, crashed := false }
    | .ok (some resp, tr) => { outputs := [resp], calls := tr, crashed := false }

/-- A stub environment for concrete evaluations: the Scopus search
returns `{}` and both abstract providers fail. -/
def netStub : Net :=
  { scopus := fun _ _ => .obj [],
    crossref := fun _ => crossrefFailure,
    pubmed := fun _ => pubmedFailure }

/-- A stub environment in which both abstract providers succeed with
fixed records, for concrete evaluations. -/
def netBoth : Net :=
  { scopus := fun _ _ => .obj [],
    crossref := fun _ => crossrefSuccess "Title A" "Abstract A",
    pubmed := fun _ => pubmedSuccess "Title B" "Abstract B" }

/-! ## The claims -/

/-- C1: contrary to the claim, an input line that does not parse as JSON
produces no output line at all and the line handler crashes: the catch
block (line 618) reads the identifier `request`, which is a `const`
scoped to the `try` block and not visible in the catch block, so a
ReferenceError is raised before the `-32603` response is serialized, and
the async line callback rejects. -/
theorem c1_parse_failure_no_output_and_crash :
    processLine netStub (.unparsable "Unexpected token x in JSON at position 0") =
      { outputs := [], calls := [], crashed := true } := rfl

theorem selectBest_of_both_fail {rc rp : ProviderResult}
    (h1 : rc.success = false) (h2 : rp.success = false) :
    selectBest rc rp = noneResult := by
  unfold selectBest
  simp [h1, h2]

theorem selectBest_of_both_succeed (tA aA tB aB : String) :
    selectBest (crossrefSuccess tA aA) (pubmedSuccess tB aB) =
      crossrefSuccess tA aA := by
  unfold selectBest
  simp [crossrefSuccess, pubmedSuccess, pickBetter]

/-- C3: for a DOI that passes the sentinel guards, when both providers
return their success records (quality scores 9 and 8), the selector
returns Crossref's record — a pure function of the adapter outcomes, so
the same on every run. -/
theorem c3_crossref_wins (net : Net) (doi : Json) (tA aA tB aB : String)
    (hd1 : jsTruthy doi = true) (hd2 : doi.isStr "N/A" = false)
    (hc : net.crossref doi = crossrefSuccess tA aA)
    (hp : net.pubmed doi = pubmedSuccess tB aB) :
    (getBestAbstract net doi).1 = crossrefSuccess tA aA := by
  unfold getBestAbstract getAbstractFromCrossref getAbstractFromPubMed
  simp only [hd1, hd2, Bool.not_true, Bool.or_false, Bool.false_eq_true, if_false, hc, hp]
  exact selectBest_of_both_succeed tA aA tB aB

/-- C3 witness: the selector at a concrete DOI with both providers
succeeding. -/
theorem c3_witness :
    (getBestAbstract netBoth (.str "10.1016/S0014-5793(01)03313-0")).1 =
      crossrefSuccess "Title A" "Abstract A" :=
  c3_crossref_wins netBoth (.str "10.1016/S0014-5793(01)03313-0")
    "Title A" "Abstract A" "Title B" "Abstract B" (by decide) (by decide) rfl rfl

/-- C4: when neither adapter call returns success (including the
sentinel-DOI short-circuits), the selector returns the
`{source: "none", success: false}` marker. -/
theorem c4_none_marker (net : Net) (doi : Json)
    (hc : (getAbstractFromCrossref net doi).1.success = false)
    (hp : (getAbstractFromPubMed net doi).1.success = false) :
    (getBestAbstract net doi).1 = noneResult := by
  show selectBest (getAbstractFromCrossref net doi).1
    (getAbstractFromPubMed net doi).1 = noneResult
  exact selectBest_of_both_fail hc hp

/-- C4 witness: both providers failing at a concrete DOI. -/
theorem c4_witness :
    (getBestAbstract netStub (.str "10.1000/xyz")).1 = noneResult :=
  c4_none_marker netStub (.str "10.1000/xyz") rfl rfl

theorem dispatch_obj_response (net : Net) (fields : List (String × Json))
    (h : isStrVal (Json.get? (.obj fields) "method") "notifications/initialized" = false) :
    ∃ (r : RpcResponse) (calls : List ProviderCall),
      dispatch net (.obj fields) = .ok (some r, calls) ∧
      r.id = Json.get? (.obj fields) "id" := by
  by_cases h1 : isStrVal (Json.get? (.obj fields) "method") "initialize" = true
  · refine ⟨handleInitializeRpc (.obj fields), [], ?_, rfl⟩
    unfold dispatch
    simp only [h1, if_true]
  · by_cases h2 : isStrVal (Json.get? (.obj fields) "method") "tools/list" = true
    · refine ⟨handleListTools (.obj fields), [], ?_, rfl⟩
      unfold dispatch
      simp only [h1, h2, Bool.false_eq_true, if_false, if_true]
    · by_cases h3 : isStrVal (Json.get? (.obj fields) "method") "tools/call" = true
      · refine ⟨(handleCallTool net (.obj fields)).1,
          (handleCallTool net (.obj fields)).2, ?_, rfl⟩
        unfold dispatch
        simp only [h1, h2, h3, Bool.false_eq_true, if_false, if_true]
      · refine ⟨{ id := Json.get? (.obj fields) "id", result := none,
                  error := some { code := -32601,
                                  message := "Method not found: " ++
                                    jsDisplayU (Json.get? (.obj fields) "method") } },
          [], ?_, rfl⟩
        unfold dispatch
        simp only [h1, h2, h3, h, Bool.false_eq_true, if_false]

/-- C2: every successfully parsed request (a JSON object, per the spec's
RpcRequest data model) whose `method` is not the string
`notifications/initialized` produces exactly one response line, the id of
that response equals the request's `id` field (absent ids echo as
absent), and the handler does not crash — uniformly over `initialize`,
`tools/list`, `tools/call` and unknown methods. -/
theorem c2_one_response_same_id (net : Net) (fields : List (String × Json))
    (h : isStrVal (Json.get? (.obj fields) "method") "notifications/initialized" = false) :
    ∃ r : RpcResponse,
      (processLine net (.parsed (.obj fields))).outputs = [r] ∧
      r.id = Json.get? (.obj fields) "id" ∧
      (processLine net (.parsed (.obj fields))).crashed = false := by
  obtain ⟨r, calls, hd, hid⟩ := dispatch_obj_response net fields h
  refine ⟨r, ?_, hid, ?_⟩ <;>
    (unfold processLine
     dsimp only
     rw [hd])

/-- C2 witness: a concrete `tools/list` request with id 1. -/
theorem c2_witness :
    ∃ r : RpcResponse,
      (processLine netStub (.parsed (.obj [("method", Json.str "tools/list"),
        ("id", Json.num 1)]))).outputs = [r] ∧
      r.id = Json.get? (.obj [("method", Json.str "tools/list"),
        ("id", Json.num 1)]) "id" ∧
      (processLine netStub (.parsed (.obj [("method", Json.str "tools/list"),
        ("id", Json.num 1)]))).crashed = false :=
  c2_one_response_same_id netStub
    [("method", Json.str "tools/list"), ("id", Json.num 1)] (by decide)

/-- C7: a parsed line whose `method` field is the string
`notifications/initialized` produces zero output lines on the protocol
stream, and the handler neither responds nor crashes. -/
theorem c7_notification_silent (net : Net) (req : Json)
    (h : isStrVal (Json.get? req "method") "notifications/initialized" = true) :
    (processLine net (.parsed req)).outputs = [] ∧
    (processLine net (.parsed req)).crashed = false := by
  obtain ⟨t, hm, ht⟩ : ∃ t, Json.get? req "method" = some (.str t) ∧
      t = "notifications/initialized" := by
    cases hmv : Json.get? req "method" with
    | none => rw [hmv] at h; simp [isStrVal] at h
    | some v =>
      cases v with
      | str t =>
        refine ⟨t, rfl, ?_⟩
        rw [hmv] at h
        simpa [isStrVal] using h
      | null => rw [hmv] at h; simp [isStrVal] at h
      | bool b => rw [hmv] at h; simp [isStrVal] at h
      | num n => rw [hmv] at h; simp [isStrVal] at h
      | arr es => rw [hmv] at h; simp [isStrVal] at h
      | obj fs => rw [hmv] at h; simp [isStrVal] at h
  subst ht
  have hreq : ∃ fs, req = Json.obj fs := by
    cases req with
    | obj fs => exact ⟨fs, rfl⟩
    | null => simp [Json.get?] at hm
    | bool b => simp [Json.get?] at hm
    | num n => simp [Json.get?] at hm
    | str s => simp [Json.get?] at hm
    | arr es => simp [Json.get?] at hm
  obtain ⟨fs, rfl⟩ := hreq
  have e1 : isStrVal (some (Json.str "notifications/initialized")) "initialize" =
    false := by decide
  have e2 : isStrVal (some (Json.str "notifications/initialized")) "tools/list" =
    false := by decide
  have e3 : isStrVal (some (Json.str "notifications/initialized")) "tools/call" =
    false := by decide
  have e4 : isStrVal (some (Json.str "notifications/initialized"))
    "notifications/initialized" = true := by decide
  constructor <;>
    (unfold processLine dispatch
     simp only [hm, e1, e2, e3, e4, Bool.false_eq_true, if_false, if_true])

/-- C7 witness: the concrete notification line. -/
theorem c7_witness :
    (processLine netStub (.parsed (.obj [("method",
      Json.str "notifications/initialized")]))).outputs = [] ∧
    (processLine netStub (.parsed (.obj [("method",
      Json.str "notifications/initialized")]))).crashed = false :=
  c7_notification_silent netStub
    (.obj [("method", Json.str "notifications/initialized")]) (by decide)

/-- C8: a `tools/call` request whose tool name is neither `search_papers`
nor `get_abstract_by_doi` gets a success response — a `result`, no
`error` — whose content is one text block naming the unknown tool, and no
provider call is made. -/
theorem c8_unknown_tool (net : Net) (req : Json) (n : String)
    (hname : Json.get? (jsOrElse (Json.get? req "params") (.obj [])) "name" =
      some (.str n))
    (h1 : n ≠ "search_papers") (h2 : n ≠ "get_abstract_by_doi") :
    (handleCallTool net req).1.error = none ∧
    (handleCallTool net req).1.result =
      some (.obj [("content", .arr [textContent ("알 수 없는 도구: " ++ n)])]) ∧
    (handleCallTool net req).2 = [] := by
  have e1 : isStrVal (some (Json.str n)) "search_papers" = false := by
    simp [isStrVal, h1]
  have e2 : isStrVal (some (Json.str n)) "get_abstract_by_doi" = false := by
    simp [isStrVal, h2]
  refine ⟨?_, ?_, ?_⟩ <;>
    (unfold handleCallTool
     simp only [hname, e1, e2, Bool.false_eq_true, if_false, jsDisplayU,
       Json.toDisplayString])

/-- C8 witness: calling the unknown tool `foo`. -/
theorem c8_witness :
    (handleCallTool netStub (.obj [("params",
      .obj [("name", Json.str "foo")])])).1.error = none ∧
    (handleCallTool netStub (.obj [("params",
      .obj [("name", Json.str "foo")])])).1.result =
      some (.obj [("content", .arr [textContent ("알 수 없는 도구: " ++ "foo")])]) ∧
    (handleCallTool netStub (.obj [("params",
      .obj [("name", Json.str "foo")])])).2 = [] :=
  c8_unknown_tool netStub (.obj [("params", .obj [("name", Json.str "foo")])])
    "foo" rfl (by decide) (by decide)

theorem searchPapersWithAbstracts_trace (net : Net) (query count : Json) :
    ∃ rest, (searchPapersWithAbstracts net query count).2 =
      ProviderCall.scopus query count :: rest :=
  ⟨_, rfl⟩

theorem searchPapersTool_trace (net : Net) (args : Json)
    (hq : jsTruthy (jsOrElse (args.get? "query") (.str "")) = true) :
    (searchPapersTool net args).2 =
      (searchPapersWithAbstracts net (jsOrElse (args.get? "query") (.str ""))
        (jsOrElse (args.get? "count") (.num 10))).2 := by
  unfold searchPapersTool
  simp only [hq, Bool.not_true, Bool.false_eq_true, if_false]

/-- C9: when `search_papers` is called with a truthy query and a falsy
`count` — 0, but also null, false or the empty string — the count the
Scopus adapter is called with is the default `Json.num 10`, not the
supplied value. -/
theorem c9_falsy_count_defaults_to_ten (net : Net) (args : Json) (q c : Json)
    (hq : args.get? "query" = some q) (hqt : jsTruthy q = true)
    (hc : args.get? "count" = some c) (hct : jsTruthy c = false) :
    ∃ rest, (searchPapersTool net args).2 =
      ProviderCall.scopus q (.num 10) :: rest := by
  have hqe : jsOrElse (args.get? "query") (.str "") = q := by
    rw [hq]
    simp [jsOrElse, hqt]
  have hce : jsOrElse (args.get? "count") (.num 10) = Json.num 10 := by
    rw [hc]
    simp [jsOrElse, hct]
  have htr := searchPapersTool_trace net args (by rw [hqe]; exact hqt)
  rw [hqe, hce] at htr
  obtain ⟨rest, hrest⟩ := searchPapersWithAbstracts_trace net q (.num 10)
  exact ⟨rest, by rw [htr, hrest]⟩

/-- C9 witness: `count: 0` forwards 10 to the Scopus call. -/
theorem c9_witness :
    ∃ rest, (searchPapersTool netStub (.obj [("query", Json.str "ai"),
      ("count", Json.num 0)])).2 =
      ProviderCall.scopus (Json.str "ai") (.num 10) :: rest :=
  c9_falsy_count_defaults_to_ten netStub
    (.obj [("query", Json.str "ai"), ("count", Json.num 0)])
    (Json.str "ai") (Json.num 0) rfl (by decide) rfl (by decide)

/-- C10: a `search_papers` call whose `query` argument is absent or the
empty string gets a success response (a `result`, no `error`) whose
content is the keyword prompt, and no provider call is made — neither the
Scopus search nor any abstract lookup. -/
theorem c10_empty_query_prompt (net : Net) (req : Json)
    (hname : Json.get? (jsOrElse (Json.get? req "params") (.obj [])) "name" =
      some (.str "search_papers"))
    (hquery :
      Json.get? (jsOrElse (Json.get? (jsOrElse (Json.get? req "params") (.obj []))
        "arguments") (.obj [])) "query" = none ∨
      Json.get? (jsOrElse (Json.get? (jsOrElse (Json.get? req "params") (.obj []))
        "arguments") (.obj [])) "query" = some (.str "")) :
    (handleCallTool net req).1.error = none ∧
    (handleCallTool net req).1.result =
      some (.obj [("content", .arr [textContent "검색할 키워드를 입력해주세요."])]) ∧
    (handleCallTool net req).2 = [] := by
  have hargs : jsTruthy (jsOrElse (Json.get? (jsOrElse (Json.get? (jsOrElse
      (Json.get? req "params") (.obj [])) "arguments") (.obj [])) "query")
      (.str "")) = false := by
    rcases hquery with h | h <;> rw [h] <;> decide
  have hsp : searchPapersTool net (jsOrElse (Json.get? (jsOrElse
      (Json.get? req "params") (.obj [])) "arguments") (.obj [])) =
      (.ok [textContent "검색할 키워드를 입력해주세요."], []) := by
    unfold searchPapersTool
    simp only [hargs, Bool.not_false, if_true]
  have e1 : isStrVal (some (Json.str "search_papers")) "search_papers" = true := by
    decide
  refine ⟨?_, ?_, ?_⟩ <;>
    (unfold handleCallTool
     simp only [hname, e1, if_true, hsp])

/-- C10 witness: `search_papers` with no `query` key at all. -/
theorem c10_witness :
    (handleCallTool netStub (.obj [("params", .obj [("name",
      Json.str "search_papers"), ("arguments", .obj [])])])).1.error = none ∧
    (handleCallTool netStub (.obj [("params", .obj [("name",
      Json.str "search_papers"), ("arguments", .obj [])])])).1.result =
      some (.obj [("content", .arr [textContent "검색할 키워드를 입력해주세요."])]) ∧
    (handleCallTool netStub (.obj [("params", .obj [("name",
      Json.str "search_papers"), ("arguments", .obj [])])])).2 = [] :=
  c10_empty_query_prompt netStub
    (.obj [("params", .obj [("name", Json.str "search_papers"),
      ("arguments", .obj [])])])
    rfl (Or.inl rfl)

/-- C5 counterexample: the empty string is itself an output of the Text
Normalizer — `cleanAbstract "<a>"` strips the tag, leaving `""` — yet a
second application returns `"N/A"` (the falsy-input guard at line 104),
not `""`. So the normalizer is not idempotent on all of its outputs. -/
theorem c5_counterexample :
    cleanAbstract (String.mk ['<', 'a', '>']) = "" ∧
    cleanAbstract (cleanAbstract (String.mk ['<', 'a', '>'])) ≠
      cleanAbstract (String.mk ['<', 'a', '>']) := by
  have hsplit : splitAtGt ['a', '>'] = some (['a'], []) := by decide
  have h2 : removeTags ['<', 'a', '>'] = [] := by
    rw [show (['<', 'a', '>'] : List Char) = '<' :: ['a', '>'] from rfl,
      removeTags_cons_matched hsplit (by simp), removeTags_nil]
  have h1 : cleanAbstract (String.mk ['<', 'a', '>']) = "" := by
    unfold cleanAbstract
    rw [if_neg (by decide)]
    have hcore : cleanCore ['<', 'a', '>'] = [] := by
      unfold cleanCore
      rw [h2, removeJatsOpen_nil, removeJatsClose_nil, collapseWs_nil,
        show trimWs [] = [] from rfl]
      decide
    rw [show (String.mk ['<', 'a', '>']).data = ['<', 'a', '>'] from rfl, hcore]
  refine ⟨h1, ?_⟩
  rw [h1]
  have hempty : cleanAbstract "" = "N/A" := by
    unfold cleanAbstract
    rw [if_pos (Or.inl rfl)]
  rw [hempty]
  decide

/-- C5 amended: the Text Normalizer is idempotent on every non-empty
output — whenever `cleanAbstract s` is not the empty string, applying the
normalizer to it returns it unchanged. (Only the empty-string output,
which the falsy guard maps to `"N/A"`, escapes idempotence.) -/
theorem c5_amended_idempotent (s : String) (h : cleanAbstract s ≠ "") :
    cleanAbstract (cleanAbstract s) = cleanAbstract s := by
  have hNA : cleanAbstract "N/A" = "N/A" := by
    unfold cleanAbstract
    rw [if_pos (Or.inr rfl)]
  by_cases h0 : s = "" ∨ s = "N/A"
  · have hs : cleanAbstract s = "N/A" := by
      unfold cleanAbstract
      rw [if_pos h0]
    rw [hs]
    exact hNA
  · have hcs : cleanAbstract s = String.mk (cleanCore s.data) := by
      unfold cleanAbstract
      rw [if_neg h0]
    rw [hcs]
    by_cases h1 : String.mk (cleanCore s.data) = "" ∨
        String.mk (cleanCore s.data) = "N/A"
    · rcases h1 with h1 | h1
      · rw [hcs] at h
        exact absurd h1 h
      · rw [h1]
        exact hNA
    · have hstep : cleanAbstract (String.mk (cleanCore s.data)) =
          String.mk (cleanCore (String.mk (cleanCore s.data)).data) := by
        unfold cleanAbstract
        rw [if_neg h1]
      rw [hstep]
      congr 1
      show cleanCore (cleanCore s.data) = cleanCore s.data
      exact cleanCore_idem s.data

/-- C5 amendment witness: a concrete non-empty output, fixed by a second
application. -/
theorem c5_amended_witness :
    cleanAbstract (String.mk ['a', 'b']) ≠ "" ∧
    cleanAbstract (cleanAbstract (String.mk ['a', 'b'])) =
      cleanAbstract (String.mk ['a', 'b']) := by
  have heval : cleanAbstract (String.mk ['a', 'b']) = String.mk ['a', 'b'] := by
    unfold cleanAbstract
    rw [if_neg (by decide)]
    congr 1
    show cleanCore ['a', 'b'] = ['a', 'b']
    unfold cleanCore
    rw [removeTags_of_gtFree (by decide),
      removeJatsOpen_of_noTag (gtFree_noTag (by decide)),
      removeJatsClose_of_noTag (gtFree_noTag (by decide)),
      collapseWs_of_wsOk (by decide),
      show trimWs ['a', 'b'] = ['a', 'b'] from by
        unfold trimWs
        rw [trimLeftWs_eq_self (by decide), trimRightWs_eq_self (by decide)]]
    unfold truncate500
    rw [if_neg (by decide)]
  have hne : cleanAbstract (String.mk ['a', 'b']) ≠ "" := by
    rw [heval]
    decide
  exact ⟨hne, c5_amended_idempotent (String.mk ['a', 'b']) hne⟩

/-- C6: a 10,000-character input that each normalizer pass leaves alone —
no tag match (the tag pass fixes it) and no collapsing or trimmable
whitespace (the collapse and trim passes fix it) — normalizes to exactly
its first 500 characters followed by the three-character `...` marker:
503 characters in all. -/
theorem c6_truncates_to_503 (s : String)
    (hlen : s.data.length = 10000)
    (htag : removeTags s.data = s.data)
    (hcol : collapseWs s.data = s.data)
    (htrim : trimWs s.data = s.data) :
    cleanAbstract s = String.mk (s.data.take 500 ++ ellipsis) ∧
    (cleanAbstract s).length = 503 := by
  have hne : ¬(s = "" ∨ s = "N/A") := by
    rintro (h | h) <;> subst h
    · exact absurd hlen (by decide)
    · exact absurd hlen (by decide)
  have hNoTag : noTag s.data = true := noTag_of_removeTags_eq htag
  have heval : cleanAbstract s = String.mk (s.data.take 500 ++ ellipsis) := by
    unfold cleanAbstract
    rw [if_neg hne]
    congr 1
    unfold cleanCore
    rw [htag, removeJatsOpen_of_noTag hNoTag, removeJatsClose_of_noTag hNoTag,
      hcol, htrim]
    unfold truncate500
    rw [if_pos (by rw [hlen]; omega)]
  refine ⟨heval, ?_⟩
  rw [heval]
  show (s.data.take 500 ++ ellipsis).length = 503
  rw [List.length_append, List.length_take, hlen]
  simp [ellipsis]

/-- C6 witness: ten thousand letters `a`. -/
theorem c6_witness :
    cleanAbstract (String.mk (List.replicate 10000 'a')) =
      String.mk (List.replicate 500 'a' ++ ellipsis) ∧
    (cleanAbstract (String.mk (List.replicate 10000 'a'))).length = 503 := by
  have hgt : gtFree (List.replicate 10000 'a') = true := by
    rw [gtFree_iff]
    intro hm
    rw [List.mem_replicate] at hm
    exact absurd hm.2 (by decide)
  have hws : ∀ c ∈ List.replicate 10000 'a', isJsWs c = false := by
    intro c hc
    rw [List.mem_replicate] at hc
    rw [hc.2]
    decide
  have htag : removeTags (List.replicate 10000 'a') = List.replicate 10000 'a' :=
    removeTags_of_gtFree hgt
  have hcol : collapseWs (List.replicate 10000 'a') = List.replicate 10000 'a' :=
    collapseWs_of_wsOk (wsOk_of_nonws hws)
  have hhead : noWsHead (List.replicate 10000 'a') = true := by
    rw [show (10000 : Nat) = 9999 + 1 from rfl, List.replicate_succ]
    decide
  have hrev : noWsHead (List.replicate 10000 'a').reverse = true := by
    rw [List.reverse_replicate, show (10000 : Nat) = 9999 + 1 from rfl,
      List.replicate_succ]
    decide
  have htrim : trimWs (List.replicate 10000 'a') = List.replicate 10000 'a' := by
    unfold trimWs
    rw [trimLeftWs_eq_self hhead, trimRightWs_eq_self hrev]
  obtain ⟨h1, h2⟩ := c6_truncates_to_503 (String.mk (List.replicate 10000 'a'))
    (by rw [show (String.mk (List.replicate 10000 'a')).data =
          List.replicate 10000 'a' from rfl, List.length_replicate])
    htag hcol htrim
  refine ⟨?_, h2⟩
  rw [h1]
  rw [show (String.mk (List.replicate 10000 'a')).data =
    List.replicate 10000 'a' from rfl, List.take_replicate,
    show min 500 10000 = 500 from by decide]

end AbstractSearch
